import Mathlib

set_option maxHeartbeats 1000000

namespace BehaviourTree

/-- The status codes returned when iterating through the behaviour tree
(class Status in src/behaviour_tree.py). -/
inductive Status where
  | SUCCESS
  | RUNNING
  | FAIL
deriving DecidableEq, Repr

/-- A node of the behaviour tree (classes Node, CompositeNode, Fallback,
Sequence, Condition, Action in src/behaviour_tree.py).  The externally
supplied callables of Condition and Action are modelled as functions from an
external world state σ to the exception monad Except ε: a raised Python
exception is the error value, and any side effect of a callable is a change
of σ.  A Condition wraps its predicate; an Action wraps its operation and
carries the stored attribute _status (initialised to RUNNING by the Python
constructor); Fallback and Sequence carry the ordered child list _children
of CompositeNode. -/
inductive Node (σ ε : Type) where
  | fallback (children : List (Node σ ε))
  | sequence (children : List (Node σ ε))
  | condition (cond : σ → Except ε (Bool × σ))
  | action (status : Status) (act : σ → Except ε (Status × σ))

mutual

/-- run(self) of the concrete node classes.  The result is the returned
status together with the resulting world state (or the propagated exception),
paired with the node as it stands after the call, since Action.run mutates
the node attribute _status.  Object mutation persists even when an exception
propagates, hence the node is returned on the error path as well. -/
def Node.run {σ ε : Type} : Node σ ε → σ → Except ε (Status × σ) × Node σ ε
  | .fallback cs, s =>
      match runFallback cs s with
      | (r, cs') => (r, .fallback cs')
  | .sequence cs, s =>
      match runSequence cs s with
      | (r, cs') => (r, .sequence cs')
  | .condition cond, s =>
      match cond s with
      | .error e => (.error e, .condition cond)
      | .ok (b, s') =>
          if b then (.ok (.SUCCESS, s'), .condition cond)
          else (.ok (.FAIL, s'), .condition cond)
  | .action st act, s =>
      match act s with
      | .error e => (.error e, .action st act)
      | .ok (r, s') => (.ok (r, s'), .action r act)

/-- The child loop of Fallback.run: runs the children in order, returns
SUCCESS on the first SUCCESS, RUNNING on the first RUNNING, continues on
FAIL, and returns FAIL after the loop exhausts the list.  A child raising
aborts the loop and propagates the exception.  Children after the point
where the loop stops are returned untouched: they were never run. -/
def runFallback {σ ε : Type} :
    List (Node σ ε) → σ → Except ε (Status × σ) × List (Node σ ε)
  | [], s => (.ok (.FAIL, s), [])
  | c :: cs, s =>
      match c.run s with
      | (.error e, c') => (.error e, c' :: cs)
      | (.ok (st, s'), c') =>
          match st with
          | .SUCCESS => (.ok (.SUCCESS, s'), c' :: cs)
          | .RUNNING => (.ok (.RUNNING, s'), c' :: cs)
          | .FAIL =>
              match runFallback cs s' with
              | (r, cs') => (r, c' :: cs')

/-- The child loop of Sequence.run: runs the children in order, returns FAIL
on the first FAIL, RUNNING on the first RUNNING, continues on SUCCESS, and
returns SUCCESS after the loop exhausts the list.  A child raising aborts
the loop and propagates the exception. -/
def runSequence {σ ε : Type} :
    List (Node σ ε) → σ → Except ε (Status × σ) × List (Node σ ε)
  | [], s => (.ok (.SUCCESS, s), [])
  | c :: cs, s =>
      match c.run s with
      | (.error e, c') => (.error e, c' :: cs)
      | (.ok (st, s'), c') =>
          match st with
          | .FAIL => (.ok (.FAIL, s'), c' :: cs)
          | .RUNNING => (.ok (.RUNNING, s'), c' :: cs)
          | .SUCCESS =>
              match runSequence cs s' with
              | (r, cs') => (r, c' :: cs')

end

/-- The child list _children of a composite node (empty for leaves, which
have no such attribute). -/
def Node.children {σ ε : Type} : Node σ ε → List (Node σ ε)
  | .fallback cs => cs
  | .sequence cs => cs
  | .condition _ => []
  | .action _ _ => []

/-- CPython semantics of list.insert(index, x), used by
CompositeNode.insert_child: the effective position is index when it lies in
[0, len], the end of the list when index exceeds len, and len + index
(clamped at 0) when index is negative.  list.insert never raises. -/
def pyInsert {α : Type} (l : List α) (i : Int) (x : α) : List α :=
  let j : Nat := if i < 0 then ((l.length : Int) + i).toNat else i.toNat
  l.take j ++ x :: l.drop j

/-- CompositeNode.add_child(self, child): appends child to self._children and
returns self.  On a leaf (where the method does not exist) the node is
returned unchanged. -/
def Node.add_child {σ ε : Type} : Node σ ε → Node σ ε → Node σ ε
  | .fallback cs, c => .fallback (cs ++ [c])
  | .sequence cs, c => .sequence (cs ++ [c])
  | n, _ => n

/-- CompositeNode.insert_child(self, index, child): calls
self._children.insert(index, child) and returns self.  On a leaf the node is
returned unchanged. -/
def Node.insert_child {σ ε : Type} : Node σ ε → Int → Node σ ε → Node σ ε
  | .fallback cs, i, c => .fallback (pyInsert cs i c)
  | .sequence cs, i, c => .sequence (pyInsert cs i c)
  | n, _, _ => n

/-- Action.__init__(self, action): the stored attribute _status starts out
as RUNNING. -/
def mkAction {σ ε : Type} (act : σ → Except ε (Status × σ)) : Node σ ε :=
  .action .RUNNING act

/-- The stored attribute _status of an Action node (none for the other node
kinds, which have no such attribute). -/
def Node.lastStatus {σ ε : Type} : Node σ ε → Option Status
  | .action st _ => some st
  | _ => none

mutual

/-- The topology of a tree: the node identities that make it up, with the
mutable Action attribute _status normalised away.  Two nodes with the same
shape are the same Python objects holding the same child lists and the same
wrapped callables; only stored Action statuses may differ. -/
def Node.shape {σ ε : Type} : Node σ ε → Node σ ε
  | .fallback cs => .fallback (shapeList cs)
  | .sequence cs => .sequence (shapeList cs)
  | .condition cond => .condition cond
  | .action _ act => .action .RUNNING act

/-- Node.shape applied to each member of a child list. -/
def shapeList {σ ε : Type} : List (Node σ ε) → List (Node σ ε)
  | [] => []
  | c :: cs => c.shape :: shapeList cs

end

/-- The loop of Fallback.run traverses this list of children completely,
each child returning FAIL: AllFail cs s cs' t holds when running cs in order
from world state s has every child return FAIL without raising, leaving the
children as cs' and the world state as t. -/
inductive AllFail {σ ε : Type} :
    List (Node σ ε) → σ → List (Node σ ε) → σ → Prop where
  | nil (s : σ) : AllFail [] s [] s
  | cons {c c' : Node σ ε} {cs cs' : List (Node σ ε)} {s s₁ t : σ} :
      c.run s = (.ok (.FAIL, s₁), c') → AllFail cs s₁ cs' t →
      AllFail (c :: cs) s (c' :: cs') t

/-- The loop of Sequence.run traverses this list of children completely,
each child returning SUCCESS: AllSucc cs s cs' t holds when running cs in
order from world state s has every child return SUCCESS without raising,
leaving the children as cs' and the world state as t. -/
inductive AllSucc {σ ε : Type} :
    List (Node σ ε) → σ → List (Node σ ε) → σ → Prop where
  | nil (s : σ) : AllSucc [] s [] s
  | cons {c c' : Node σ ε} {cs cs' : List (Node σ ε)} {s s₁ t : σ} :
      c.run s = (.ok (.SUCCESS, s₁), c') → AllSucc cs s₁ cs' t →
      AllSucc (c :: cs) s (c' :: cs') t

/-- A wrapped callable reached by the evaluation of this node from this
world state raises the exception e: directly at a leaf, or inside the child
of a composite that the traversal actually reaches (for a Fallback, every
earlier child returned FAIL; for a Sequence, every earlier child returned
SUCCESS). -/
inductive Raises {σ ε : Type} : Node σ ε → σ → ε → Prop where
  | condition {cond : σ → Except ε (Bool × σ)} {s : σ} {e : ε} :
      cond s = .error e → Raises (.condition cond) s e
  | action {st : Status} {act : σ → Except ε (Status × σ)} {s : σ} {e : ε} :
      act s = .error e → Raises (.action st act) s e
  | fallback {p p' q : List (Node σ ε)} {c : Node σ ε} {s s₁ : σ} {e : ε} :
      AllFail p s p' s₁ → Raises c s₁ e →
      Raises (.fallback (p ++ c :: q)) s e
  | sequence {p p' q : List (Node σ ε)} {c : Node σ ε} {s s₁ : σ} {e : ε} :
      AllSucc p s p' s₁ → Raises c s₁ e →
      Raises (.sequence (p ++ c :: q)) s e

lemma run_fallback_def {σ ε : Type} (cs : List (Node σ ε)) (s : σ) :
    (Node.fallback cs).run s =
      ((runFallback cs s).1, .fallback (runFallback cs s).2) := rfl

lemma run_sequence_def {σ ε : Type} (cs : List (Node σ ε)) (s : σ) :
    (Node.sequence cs).run s =
      ((runSequence cs s).1, .sequence (runSequence cs s).2) := rfl

lemma runFallback_append_allFail {σ ε : Type} {p p' : List (Node σ ε)}
    {s s₁ : σ} (h : AllFail p s p' s₁) (rest : List (Node σ ε)) :
    runFallback (p ++ rest) s =
      ((runFallback rest s₁).1, p' ++ (runFallback rest s₁).2) := by
  induction h with
  | nil s => simp [runFallback]
  | cons hc _ ih => simp [runFallback, hc, ih]

lemma runSequence_append_allSucc {σ ε : Type} {p p' : List (Node σ ε)}
    {s s₁ : σ} (h : AllSucc p s p' s₁) (rest : List (Node σ ε)) :
    runSequence (p ++ rest) s =
      ((runSequence rest s₁).1, p' ++ (runSequence rest s₁).2) := by
  induction h with
  | nil s => simp [runSequence]
  | cons hc _ ih => simp [runSequence, hc, ih]

lemma runFallback_allFail {σ ε : Type} {cs cs' : List (Node σ ε)} {s t : σ}
    (h : AllFail cs s cs' t) : runFallback cs s = (.ok (.FAIL, t), cs') := by
  induction h with
  | nil s => rfl
  | cons hc _ ih => simp [runFallback, hc, ih]

lemma runSequence_allSucc {σ ε : Type} {cs cs' : List (Node σ ε)} {s t : σ}
    (h : AllSucc cs s cs' t) :
    runSequence cs s = (.ok (.SUCCESS, t), cs') := by
  induction h with
  | nil s => rfl
  | cons hc _ ih => simp [runSequence, hc, ih]

/-- C1: Fallback.run evaluates children strictly in order; when a prefix p
runs to all-FAIL and the next child c returns a status other than FAIL, the
whole run returns exactly that status and state, and the children after c
are returned untouched (never evaluated); when every child returns FAIL —
in particular when there are no children — the run returns FAIL. -/
theorem fallback_run_first_non_fail (σ ε : Type) :
    (∀ (s : σ),
      (Node.fallback ([] : List (Node σ ε))).run s =
        (.ok (.FAIL, s), .fallback [])) ∧
    (∀ (p p' q : List (Node σ ε)) (c c' : Node σ ε) (s s₁ s₂ : σ)
      (st : Status),
      AllFail p s p' s₁ → c.run s₁ = (.ok (st, s₂), c') → st ≠ .FAIL →
      (Node.fallback (p ++ c :: q)).run s =
        (.ok (st, s₂), .fallback (p' ++ c' :: q))) ∧
    (∀ (cs cs' : List (Node σ ε)) (s t : σ),
      AllFail cs s cs' t →
      (Node.fallback cs).run s = (.ok (.FAIL, t), .fallback cs')) := by
  refine ⟨fun s => rfl, ?_, ?_⟩
  · intro p p' q c c' s s₁ s₂ st hp hc hst
    rw [run_fallback_def, runFallback_append_allFail hp]
    cases st with
    | SUCCESS => simp [runFallback, hc]
    | RUNNING => simp [runFallback, hc]
    | FAIL => exact absurd rfl hst
  · intro cs cs' s t h
    rw [run_fallback_def, runFallback_allFail h]

/-- C2: Sequence.run evaluates children strictly in order; when a prefix p
runs to all-SUCCESS and the next child c returns a status other than
SUCCESS, the whole run returns exactly that status and state, and the
children after c are returned untouched (never evaluated); when every child
returns SUCCESS — in particular when there are no children — the run
returns SUCCESS. -/
theorem sequence_run_first_non_success (σ ε : Type) :
    (∀ (s : σ),
      (Node.sequence ([] : List (Node σ ε))).run s =
        (.ok (.SUCCESS, s), .sequence [])) ∧
    (∀ (p p' q : List (Node σ ε)) (c c' : Node σ ε) (s s₁ s₂ : σ)
      (st : Status),
      AllSucc p s p' s₁ → c.run s₁ = (.ok (st, s₂), c') → st ≠ .SUCCESS →
      (Node.sequence (p ++ c :: q)).run s =
        (.ok (st, s₂), .sequence (p' ++ c' :: q))) ∧
    (∀ (cs cs' : List (Node σ ε)) (s t : σ),
      AllSucc cs s cs' t →
      (Node.sequence cs).run s = (.ok (.SUCCESS, t), .sequence cs')) := by
  refine ⟨fun s => rfl, ?_, ?_⟩
  · intro p p' q c c' s s₁ s₂ st hp hc hst
    rw [run_sequence_def, runSequence_append_allSucc hp]
    cases st with
    | SUCCESS => exact absurd rfl hst
    | RUNNING => simp [runSequence, hc]
    | FAIL => simp [runSequence, hc]
  · intro cs cs' s t h
    rw [run_sequence_def, runSequence_allSucc h]

/-- A concrete predicate: returns True and bumps the world counter. -/
def demoTrueFn : Nat → Except Unit (Bool × Nat) := fun s => .ok (true, s + 1)

/-- A concrete predicate: returns False and bumps the world counter. -/
def demoFalseFn : Nat → Except Unit (Bool × Nat) := fun s => .ok (false, s + 1)

/-- A concrete Condition node around demoTrueFn. -/
def demoTrueCond : Node Nat Unit := .condition demoTrueFn

/-- A concrete Condition node around demoFalseFn. -/
def demoFalseCond : Node Nat Unit := .condition demoFalseFn

/-- A concrete operation: returns SUCCESS and adds 10 to the counter. -/
def demoSuccActFn : Nat → Except Unit (Status × Nat) := fun s => .ok (.SUCCESS, s + 10)

/-- A concrete operation: returns RUNNING and adds 5 to the counter. -/
def demoRunActFn : Nat → Except Unit (Status × Nat) := fun s => .ok (.RUNNING, s + 5)

/-- A concrete predicate that raises. -/
def demoRaiseCondFn : Nat → Except Unit (Bool × Nat) := fun _ => .error ()

/-- A concrete Condition node whose predicate raises. -/
def demoRaiseCond : Node Nat Unit := .condition demoRaiseCondFn

/-- A concrete operation that raises. -/
def demoRaiseActFn : Nat → Except Unit (Status × Nat) := fun _ => .error ()

/-- A concrete operation that returns RUNNING on the first call (counter 0)
and SUCCESS afterwards, bumping the counter. -/
def demoScriptFn : Nat → Except Unit (Status × Nat) :=
  fun n => .ok (if n == 0 then .RUNNING else .SUCCESS, n + 1)

/-- C4: Condition.run calls the wrapped predicate once — the resulting
world state is exactly the state after a single predicate call — and
returns SUCCESS when the predicate returns a truthy value and FAIL
otherwise, leaving the node itself unchanged; a normally completing
Condition.run never returns RUNNING. -/
theorem condition_run_iff (σ ε : Type) :
    (∀ (cond : σ → Except ε (Bool × σ)) (s : σ) (b : Bool) (s' : σ),
      cond s = .ok (b, s') →
      (Node.condition cond).run s =
        (.ok (if b then Status.SUCCESS else Status.FAIL, s'),
          .condition cond)) ∧
    (∀ (cond : σ → Except ε (Bool × σ)) (s s' : σ) (st : Status)
      (n' : Node σ ε),
      (Node.condition cond).run s = (.ok (st, s'), n') → st ≠ .RUNNING) := by
  constructor
  · intro cond s b s' h
    cases b <;> simp [Node.run, h]
  · intro cond s s' st n' h
    cases hc : cond s with
    | error e => simp [Node.run, hc] at h
    | ok p =>
        obtain ⟨b, s₂⟩ := p
        cases b <;> simp [Node.run, hc] at h <;> simp [← h.1.1]

/-- Witness for C4 at a concrete predicate. -/
theorem condition_run_iff_witness :
    (Node.condition demoTrueFn).run 0 =
      (.ok (.SUCCESS, 1), .condition demoTrueFn) ∧
    Status.SUCCESS ≠ Status.RUNNING := by
  constructor
  · simpa using (condition_run_iff Nat Unit).1 demoTrueFn 0 true 1 rfl
  · exact (condition_run_iff Nat Unit).2 demoTrueFn 0 1 .SUCCESS
      (.condition demoTrueFn) rfl

/-- C5: an Action is constructed with stored status RUNNING; Action.run
calls the wrapped operation once, stores the returned Status in the node
and returns exactly that Status, so after the call the stored status is the
value the operation just returned. -/
theorem action_run_stores_and_returns (σ ε : Type) :
    (∀ (act : σ → Except ε (Status × σ)),
      (mkAction act : Node σ ε).lastStatus = some .RUNNING) ∧
    (∀ (st₀ : Status) (act : σ → Except ε (Status × σ)) (s : σ)
      (r : Status) (s' : σ),
      act s = .ok (r, s') →
      (Node.action st₀ act).run s = (.ok (r, s'), .action r act) ∧
      (((Node.action st₀ act).run s).2).lastStatus = some r) := by
  constructor
  · intro act
    rfl
  · intro st₀ act s r s' h
    constructor <;> simp [Node.run, h, Node.lastStatus]

/-- Witness for C5: the RUNNING-then-SUCCESS two-call scenario from the
spec, with the stored status mirroring each returned value. -/
theorem action_run_stores_and_returns_witness :
    (mkAction demoScriptFn : Node Nat Unit).lastStatus = some .RUNNING ∧
    (mkAction demoScriptFn : Node Nat Unit).run 0 =
      (.ok (.RUNNING, 1), .action .RUNNING demoScriptFn) ∧
    (Node.action .RUNNING demoScriptFn).run 1 =
      (.ok (.SUCCESS, 2), .action .SUCCESS demoScriptFn) := by
  refine ⟨(action_run_stores_and_returns Nat Unit).1 demoScriptFn, ?_, ?_⟩
  · exact ((action_run_stores_and_returns Nat Unit).2 .RUNNING demoScriptFn
      0 .RUNNING 1 rfl).1
  · exact ((action_run_stores_and_returns Nat Unit).2 .RUNNING demoScriptFn
      1 .SUCCESS 2 rfl).1

/-- C10: when the wrapped operation raises, Action.run propagates the
exception and the node is returned with its stored status untouched: the
assignment to _status happens only after the operation returns normally. -/
theorem action_run_error_keeps_status {σ ε : Type}
    (st : Status) (act : σ → Except ε (Status × σ)) (s : σ) (e : ε)
    (h : act s = .error e) :
    (Node.action st act).run s = (.error e, .action st act) := by
  simp [Node.run, h]

/-- Witness for C10 at a concrete raising operation and a non-RUNNING
stored status. -/
theorem action_run_error_keeps_status_witness :
    (Node.action .SUCCESS demoRaiseActFn).run 0 =
      (.error (), .action .SUCCESS demoRaiseActFn) :=
  action_run_error_keeps_status .SUCCESS demoRaiseActFn 0 () rfl

/-- Witness for C1: a failing condition, then a succeeding action, then a
further condition; the run returns SUCCESS after the action and the third
child is untouched. -/
theorem fallback_run_first_non_fail_witness :
    (Node.fallback [demoFalseCond, mkAction demoSuccActFn, demoTrueCond]).run
        0 =
      (.ok (.SUCCESS, 11),
        .fallback
          [demoFalseCond, .action .SUCCESS demoSuccActFn, demoTrueCond]) := by
  have h := (fallback_run_first_non_fail Nat Unit).2.1
    [demoFalseCond] [demoFalseCond] [demoTrueCond]
    (mkAction demoSuccActFn) (.action .SUCCESS demoSuccActFn)
    0 1 11 .SUCCESS
    (AllFail.cons rfl (AllFail.nil 1)) rfl (by decide)
  simpa using h

/-- Witness for C2: a true condition, then an action reporting RUNNING,
then a further action; the run returns RUNNING after the second child and
the third child is untouched. -/
theorem sequence_run_first_non_success_witness :
    (Node.sequence [demoTrueCond, mkAction demoRunActFn,
        mkAction demoSuccActFn]).run 0 =
      (.ok (.RUNNING, 6),
        .sequence [demoTrueCond, .action .RUNNING demoRunActFn,
          mkAction demoSuccActFn]) := by
  have h := (sequence_run_first_non_success Nat Unit).2.1
    [demoTrueCond] [demoTrueCond] [mkAction demoSuccActFn]
    (mkAction demoRunActFn) (.action .RUNNING demoRunActFn)
    0 1 6 .RUNNING
    (AllSucc.cons rfl (AllSucc.nil 1)) rfl (by decide)
  simpa using h

/-- C7: an exception raised by a wrapped predicate or operation anywhere in
the tree that the traversal reaches propagates unchanged through every
enclosing composite to the caller of the root run: the run result is the
very same error value. -/
theorem raised_exception_propagates {σ ε : Type} {n : Node σ ε} {s : σ}
    {e : ε} (h : Raises n s e) : (n.run s).1 = .error e := by
  induction h with
  | condition hc => simp [Node.run, hc]
  | action ha => simp [Node.run, ha]
  | fallback hp _ ih =>
      rw [run_fallback_def]
      simp only
      rw [runFallback_append_allFail hp]
      simp only
      rename_i p p' q c s s₁ e _
      cases hcr : c.run s₁ with
      | mk r c' =>
          have hr : r = .error e := by
            have h₁ := ih
            rw [hcr] at h₁
            exact h₁
          subst hr
          simp [runFallback, hcr]
  | sequence hp _ ih =>
      rw [run_sequence_def]
      simp only
      rw [runSequence_append_allSucc hp]
      simp only
      rename_i p p' q c s s₁ e _
      cases hcr : c.run s₁ with
      | mk r c' =>
          have hr : r = .error e := by
            have h₁ := ih
            rw [hcr] at h₁
            exact h₁
          subst hr
          simp [runSequence, hcr]

/-- Witness for C7: a raising predicate two levels deep (inside a Fallback
inside a Sequence, behind FAIL and SUCCESS siblings); the root run yields
the same error. -/
theorem raised_exception_propagates_witness :
    ((Node.sequence [demoTrueCond,
        Node.fallback [demoFalseCond, demoRaiseCond]]).run 0).1 =
      .error () := by
  have hR : Raises (Node.fallback [demoFalseCond, demoRaiseCond]) 1 () :=
    Raises.fallback (p := [demoFalseCond]) (q := [])
      (AllFail.cons rfl (AllFail.nil 2)) (Raises.condition rfl)
  have hS : Raises (Node.sequence [demoTrueCond,
      Node.fallback [demoFalseCond, demoRaiseCond]]) 0 () :=
    Raises.sequence (p := [demoTrueCond]) (q := [])
      (AllSucc.cons rfl (AllSucc.nil 1)) hR
  exact raised_exception_propagates hS

lemma pyInsert_natCast {α : Type} (l : List α) (i : Nat) (x : α) :
    pyInsert l (i : Int) x = l.take i ++ x :: l.drop i := by
  simp only [pyInsert]
  rw [if_neg (by omega), Int.toNat_natCast]

lemma pyInsert_of_length_lt {α : Type} (l : List α) (i : Int) (x : α)
    (h : (l.length : Int) < i) : pyInsert l i x = l ++ [x] := by
  simp only [pyInsert]
  rw [if_neg (by omega)]
  have hl : l.length ≤ i.toNat := by omega
  rw [List.take_of_length_le hl, List.drop_of_length_le hl]

lemma pyInsert_of_neg {α : Type} (l : List α) (i : Int) (x : α) (h : i < 0) :
    pyInsert l i x =
      l.take ((l.length : Int) + i).toNat ++
        x :: l.drop ((l.length : Int) + i).toNat := by
  simp only [pyInsert]
  rw [if_pos h]

lemma pyInsert_front {α : Type} (l : List α) (i : Int) (x : α)
    (h : i + l.length ≤ 0) : pyInsert l i x = x :: l := by
  rcases lt_or_ge i 0 with hi | hi
  · rw [pyInsert_of_neg l i x hi]
    have h0 : ((l.length : Int) + i).toNat = 0 := by omega
    rw [h0]
    simp
  · have h0 : i = 0 := by omega
    have hl : l = [] := List.length_eq_zero.mp (by omega)
    subst h0
    subst hl
    rfl

/-- C6: add_child appends at the end of the child list and returns the
composite; insert_child at a valid index i (0 ≤ i ≤ length) places the
child between the first i children and the rest, shifting the rest one
place later, and returns the composite; the previously present children
keep their relative order. -/
theorem add_insert_child_spec (σ ε : Type) :
    (∀ (cs : List (Node σ ε)) (c : Node σ ε),
      (Node.fallback cs).add_child c = .fallback (cs ++ [c]) ∧
      (Node.sequence cs).add_child c = .sequence (cs ++ [c])) ∧
    (∀ (cs : List (Node σ ε)) (c : Node σ ε) (i : Nat), i ≤ cs.length →
      (Node.fallback cs).insert_child (i : Int) c =
        .fallback (cs.take i ++ c :: cs.drop i) ∧
      (Node.sequence cs).insert_child (i : Int) c =
        .sequence (cs.take i ++ c :: cs.drop i)) := by
  constructor
  · intro cs c
    exact ⟨rfl, rfl⟩
  · intro cs c i _
    constructor <;> simp [Node.insert_child, pyInsert_natCast]

/-- Witness for C6: [A, B].add_child(C) yields [A, B, C] and
[A, B].insert_child(0, C) yields [C, A, B]. -/
theorem add_insert_child_spec_witness :
    (Node.fallback [demoTrueCond, demoFalseCond]).add_child demoRaiseCond =
      .fallback [demoTrueCond, demoFalseCond, demoRaiseCond] ∧
    (Node.fallback [demoTrueCond, demoFalseCond]).insert_child 0
        demoRaiseCond =
      .fallback [demoRaiseCond, demoTrueCond, demoFalseCond] := by
  constructor
  · simpa using ((add_insert_child_spec Nat Unit).1
      [demoTrueCond, demoFalseCond] demoRaiseCond).1
  · simpa using ((add_insert_child_spec Nat Unit).2
      [demoTrueCond, demoFalseCond] demoRaiseCond 0 (by omega)).1

/-- C9: insert_child never raises, because Python list.insert clamps the
position: an index beyond the child count appends at the end; a negative
index counts from the end of the list; a negative index reaching past the
front inserts at position 0; a composite holding the new child list is
returned in every case. -/
theorem insert_child_clamps (σ ε : Type) :
    (∀ (cs : List (Node σ ε)) (i : Int) (c : Node σ ε),
      (cs.length : Int) < i →
      (Node.fallback cs).insert_child i c = .fallback (cs ++ [c]) ∧
      (Node.sequence cs).insert_child i c = .sequence (cs ++ [c])) ∧
    (∀ (cs : List (Node σ ε)) (i : Int) (c : Node σ ε), i < 0 →
      (Node.fallback cs).insert_child i c =
        .fallback (cs.take ((cs.length : Int) + i).toNat ++
          c :: cs.drop ((cs.length : Int) + i).toNat) ∧
      (Node.sequence cs).insert_child i c =
        .sequence (cs.take ((cs.length : Int) + i).toNat ++
          c :: cs.drop ((cs.length : Int) + i).toNat)) ∧
    (∀ (cs : List (Node σ ε)) (i : Int) (c : Node σ ε),
      i + cs.length ≤ 0 →
      (Node.fallback cs).insert_child i c = .fallback (c :: cs) ∧
      (Node.sequence cs).insert_child i c = .sequence (c :: cs)) := by
  refine ⟨?_, ?_, ?_⟩
  · intro cs i c h
    constructor <;> simp [Node.insert_child, pyInsert_of_length_lt _ _ _ h]
  · intro cs i c h
    constructor <;> simp [Node.insert_child, pyInsert_of_neg _ _ _ h]
  · intro cs i c h
    constructor <;> simp [Node.insert_child, pyInsert_front _ _ _ h]

/-- Witness for C9: inserting at index 5 into a one-child composite
appends; inserting at index -3 into a one-child composite clamps to the
front. -/
theorem insert_child_clamps_witness :
    (Node.fallback [demoTrueCond]).insert_child 5 demoRaiseCond =
      .fallback [demoTrueCond, demoRaiseCond] ∧
    (Node.fallback [demoTrueCond]).insert_child (-3) demoRaiseCond =
      .fallback [demoRaiseCond, demoTrueCond] := by
  constructor
  · simpa using ((insert_child_clamps Nat Unit).1 [demoTrueCond] 5
      demoRaiseCond (by decide)).1
  · simpa using ((insert_child_clamps Nat Unit).2.2 [demoTrueCond] (-3)
      demoRaiseCond (by decide)).1

/-- C3 counterexample: inserting at index 5 into a composite with a single
child does not fail — list.insert clamps — and the child sequence is
changed: the new child now sits at the end. -/
theorem insert_child_oob_changes_children :
    ((Node.fallback [demoTrueCond]).insert_child 5 demoRaiseCond).children =
      [demoTrueCond, demoRaiseCond] ∧
    ((Node.fallback [demoTrueCond]).insert_child 5 demoRaiseCond).children ≠
      (Node.fallback [demoTrueCond]).children := by
  constructor
  · rfl
  · intro h
    have hlen := congrArg List.length h
    simp [Node.children, Node.insert_child, pyInsert] at hlen

/-- C3 amended: insert_child with an index outside [0, length of the child
list] does not raise; an index beyond the length appends the node at the
end (and a negative one counts from the end), so the child sequence is
changed, not left unchanged, and the composite is returned. -/
theorem insert_child_oob_appends (σ ε : Type) :
    ∀ (cs : List (Node σ ε)) (i : Int) (c : Node σ ε),
      (cs.length : Int) < i →
      (Node.fallback cs).insert_child i c = .fallback (cs ++ [c]) ∧
      (Node.sequence cs).insert_child i c = .sequence (cs ++ [c]) := by
  intro cs i c h
  constructor <;> simp [Node.insert_child, pyInsert_of_length_lt _ _ _ h]

/-- Witness for the amended C3 at index 5 on a one-child composite. -/
theorem insert_child_oob_appends_witness :
    (Node.sequence [demoTrueCond]).insert_child 5 demoRaiseCond =
      .sequence [demoTrueCond, demoRaiseCond] := by
  simpa using (insert_child_oob_appends Nat Unit [demoTrueCond] 5
    demoRaiseCond (by decide)).2

lemma shapeList_eq_map {σ ε : Type} (cs : List (Node σ ε)) :
    shapeList cs = cs.map Node.shape := by
  induction cs with
  | nil => rfl
  | cons c cs ih => simp [shapeList, ih]

mutual

lemma run_shape {σ ε : Type} : ∀ (n : Node σ ε) (s : σ),
    ((n.run s).2).shape = n.shape
  | .fallback cs, s => by
      rw [run_fallback_def]
      simp only [Node.shape]
      rw [runFallback_shape cs s]
  | .sequence cs, s => by
      rw [run_sequence_def]
      simp only [Node.shape]
      rw [runSequence_shape cs s]
  | .condition cond, s => by
      cases hc : cond s with
      | error e => simp [Node.run, hc]
      | ok p =>
          obtain ⟨b, s'⟩ := p
          cases b <;> simp [Node.run, hc]
  | .action st act, s => by
      cases ha : act s with
      | error e => simp [Node.run, ha]
      | ok p =>
          obtain ⟨r, s'⟩ := p
          simp [Node.run, ha, Node.shape]

lemma runFallback_shape {σ ε : Type} : ∀ (cs : List (Node σ ε)) (s : σ),
    shapeList (runFallback cs s).2 = shapeList cs
  | [], _ => rfl
  | c :: cs, s => by
      cases hr : c.run s with
      | mk r c' =>
          have hc : Node.shape c' = Node.shape c := by
            have h := run_shape c s
            rw [hr] at h
            exact h
          cases r with
          | error e => simp [runFallback, hr, shapeList, hc]
          | ok p =>
              obtain ⟨st, s'⟩ := p
              cases st <;>
                simp [runFallback, hr, shapeList, hc,
                  runFallback_shape cs s']

lemma runSequence_shape {σ ε : Type} : ∀ (cs : List (Node σ ε)) (s : σ),
    shapeList (runSequence cs s).2 = shapeList cs
  | [], _ => rfl
  | c :: cs, s => by
      cases hr : c.run s with
      | mk r c' =>
          have hc : Node.shape c' = Node.shape c := by
            have h := run_shape c s
            rw [hr] at h
            exact h
          cases r with
          | error e => simp [runSequence, hr, shapeList, hc]
          | ok p =>
              obtain ⟨st, s'⟩ := p
              cases st <;>
                simp [runSequence, hr, shapeList, hc,
                  runSequence_shape cs s']

end

/-- C8: running a Fallback or a Sequence never adds or removes children:
the node returned by run is a composite of the same kind whose child list
has the same length and, position by position, the same children (same
shape: same topology and the same wrapped callables — only the stored
Action statuses inside children may have been overwritten by their own
run). -/
theorem run_preserves_children (σ ε : Type) :
    ∀ (cs : List (Node σ ε)) (s : σ),
      (((Node.fallback cs).run s).2).children.map Node.shape =
        cs.map Node.shape ∧
      (((Node.fallback cs).run s).2).children.length = cs.length ∧
      (((Node.sequence cs).run s).2).children.map Node.shape =
        cs.map Node.shape ∧
      (((Node.sequence cs).run s).2).children.length = cs.length := by
  intro cs s
  have hf : (((Node.fallback cs).run s).2).children.map Node.shape =
      cs.map Node.shape := by
    rw [run_fallback_def]
    simp only [Node.children]
    rw [← shapeList_eq_map, ← shapeList_eq_map, runFallback_shape]
  have hs : (((Node.sequence cs).run s).2).children.map Node.shape =
      cs.map Node.shape := by
    rw [run_sequence_def]
    simp only [Node.children]
    rw [← shapeList_eq_map, ← shapeList_eq_map, runSequence_shape]
  refine ⟨hf, ?_, hs, ?_⟩
  · have h := congrArg List.length hf
    simpa using h
  · have h := congrArg List.length hs
    simpa using h

end BehaviourTree
